import Mathlib

/-!
# ThreadKeeper local store — verification development

A shallow embedding of the `StorageManager` class from
`extension/lib/storage.js` (the ThreadKeeper browser extension's local
persistence layer), together with proofs about its invariants and
operations.

JavaScript objects used as id-keyed maps (`threads`, `collections`,
`tags`) are embedded as association lists `List (String × α)`: JS objects
keep string keys unique and iterate in insertion order; assigning to an
existing key keeps its position, assigning a fresh key appends, and
`delete` removes the entry.  The helper operations `getk` / `setk` /
`delk` below implement exactly that discipline.

JS numbers holding counters are embedded as `Int` (storage.js only ever
adds and subtracts 1, and `metadata.threadCount--` can in principle go
negative).  Timestamps produced by `Date.now()` are passed in as explicit
`now : Nat` parameters, and the `calculateStorageUsed()` recomputation
(the byte size of a `Blob` of the whole store, an environment-dependent
quantity) is passed in as an explicit `used : Nat` parameter at the call
sites that refresh `metadata.storageUsed`.
-/

namespace ThreadKeeper

/-! ## Association-list maps (JS objects keyed by string ids) -/

/-- Read a key: `obj[k]`, `none` when absent. -/
def getk (k : String) : List (String × α) → Option α
  | [] => none
  | (k', v) :: rest => if k' = k then some v else getk k rest

/-- Write a key: `obj[k] = v`.  Replaces in place when the key exists
(keeping its position, as JS objects do), appends otherwise. -/
def setk (k : String) (v : α) : List (String × α) → List (String × α)
  | [] => [(k, v)]
  | (k', v') :: rest => if k' = k then (k, v) :: rest else (k', v') :: setk k v rest

/-- Delete a key: `delete obj[k]`. -/
def delk (k : String) : List (String × α) → List (String × α)
  | [] => []
  | (k', v) :: rest => if k' = k then delk k rest else (k', v) :: delk k rest

/-- The key list of a map, in iteration order. -/
def keys (m : List (String × α)) : List String :=
  m.map Prod.fst

@[simp] theorem keys_nil : keys ([] : List (String × α)) = [] := rfl

@[simp] theorem keys_cons {e : String × α} {m : List (String × α)} :
    keys (e :: m) = e.1 :: keys m := rfl

@[simp] theorem getk_nil {k : String} : getk k ([] : List (String × α)) = none := rfl

theorem getk_cons {k k' : String} {v : α} {rest : List (String × α)} :
    getk k ((k', v) :: rest) = if k' = k then some v else getk k rest := rfl

@[simp] theorem getk_setk_self {k : String} {v : α} {m : List (String × α)} :
    getk k (setk k v m) = some v := by
  induction m with
  | nil => simp [getk, setk]
  | cons e rest ih =>
    rcases e with ⟨ek, ev⟩
    by_cases he : ek = k
    · subst he
      simp [getk, setk]
    · simp [getk, setk, he, ih]

theorem getk_setk_ne {k k' : String} {v : α} {m : List (String × α)} (h : k' ≠ k) :
    getk k' (setk k v m) = getk k' m := by
  have hkk : ¬k = k' := fun hk => h hk.symm
  induction m with
  | nil => simp [getk, setk, hkk]
  | cons e rest ih =>
    rcases e with ⟨ek, ev⟩
    by_cases he : ek = k
    · subst he
      simp [getk, setk, hkk]
    · by_cases he' : ek = k' <;> simp [getk, setk, he, he', ih, h, hkk]

@[simp] theorem getk_delk_self {k : String} {m : List (String × α)} :
    getk k (delk k m) = none := by
  induction m with
  | nil => simp [delk]
  | cons e rest ih =>
    rcases e with ⟨ek, ev⟩
    by_cases he : ek = k <;> simp [delk, getk, he, ih]

theorem getk_delk_ne {k k' : String} {m : List (String × α)} (h : k' ≠ k) :
    getk k' (delk k m) = getk k' m := by
  induction m with
  | nil => simp [delk]
  | cons e rest ih =>
    rcases e with ⟨ek, ev⟩
    by_cases he : ek = k
    · subst he
      simp [delk, getk, (show ¬ek = k' from fun hk => h hk.symm), ih]
    · by_cases he' : ek = k' <;> simp [delk, getk, he, he', ih, h]

theorem getk_isSome_iff {k : String} {m : List (String × α)} :
    (getk k m).isSome ↔ k ∈ keys m := by
  induction m with
  | nil => simp
  | cons e rest ih =>
    rcases e with ⟨ek, ev⟩
    by_cases he : ek = k
    · subst he
      simp [getk]
    · simp [getk, he, ih, (show ¬k = ek from fun hk => he hk.symm)]

theorem getk_eq_none_iff {k : String} {m : List (String × α)} :
    getk k m = none ↔ k ∉ keys m := by
  rw [← getk_isSome_iff]
  cases getk k m <;> simp

theorem mem_keys_setk {k k' : String} {v : α} {m : List (String × α)} :
    k' ∈ keys (setk k v m) ↔ k' ∈ keys m ∨ k' = k := by
  rw [← getk_isSome_iff, ← getk_isSome_iff]
  by_cases hk : k' = k
  · subst hk
    simp
  · simp [getk_setk_ne hk, hk]

theorem mem_keys_delk {k k' : String} {m : List (String × α)} :
    k' ∈ keys (delk k m) ↔ k' ≠ k ∧ k' ∈ keys m := by
  rw [← getk_isSome_iff, ← getk_isSome_iff]
  by_cases hk : k' = k
  · subst hk
    simp
  · simp [getk_delk_ne hk, hk]

theorem nodup_keys_setk {k : String} {v : α} {m : List (String × α)}
    (h : (keys m).Nodup) : (keys (setk k v m)).Nodup := by
  induction m with
  | nil => simp [setk]
  | cons e rest ih =>
    rcases e with ⟨ek, ev⟩
    simp only [keys_cons, List.nodup_cons] at h
    by_cases he : ek = k
    · subst he
      simpa [setk, List.nodup_cons] using h
    · simp only [setk, if_neg he, keys_cons, List.nodup_cons]
      exact ⟨fun hc => (mem_keys_setk.1 hc).elim (fun ha => h.1 ha) (fun hb => he hb),
        ih h.2⟩

theorem nodup_keys_delk {k : String} {m : List (String × α)}
    (h : (keys m).Nodup) : (keys (delk k m)).Nodup := by
  induction m with
  | nil => simp [delk]
  | cons e rest ih =>
    rcases e with ⟨ek, ev⟩
    simp only [keys_cons, List.nodup_cons] at h
    by_cases he : ek = k
    · simpa [delk, he] using ih h.2
    · simp only [delk, if_neg he, keys_cons, List.nodup_cons]
      exact ⟨fun hc => h.1 (mem_keys_delk.1 hc).2, ih h.2⟩

theorem getk_mem {k : String} {v : α} {m : List (String × α)}
    (h : getk k m = some v) : (k, v) ∈ m := by
  induction m with
  | nil => simp [getk] at h
  | cons e rest ih =>
    rcases e with ⟨ek, ev⟩
    by_cases he : ek = k
    · subst he
      rw [getk_cons, if_pos rfl] at h
      injection h with h
      subst h
      exact List.mem_cons_self _ _
    · rw [getk_cons, if_neg he] at h
      exact List.mem_cons_of_mem _ (ih h)

theorem mem_getk {k : String} {v : α} {m : List (String × α)}
    (hnd : (keys m).Nodup) (h : (k, v) ∈ m) : getk k m = some v := by
  induction m with
  | nil => simp at h
  | cons e rest ih =>
    rcases e with ⟨ek, ev⟩
    simp only [keys_cons, List.nodup_cons] at hnd
    rcases List.mem_cons.1 h with h | h
    · injection h with h1 h2
      subst h1
      subst h2
      rw [getk_cons, if_pos rfl]
    · have hne : ek ≠ k := by
        intro hk
        exact hnd.1 (hk ▸ List.mem_map.2 ⟨(k, v), h, rfl⟩)
      simp [getk, hne, ih hnd.2 h]

theorem mem_iff_getk {k : String} {v : α} {m : List (String × α)}
    (hnd : (keys m).Nodup) : (k, v) ∈ m ↔ getk k m = some v :=
  ⟨mem_getk hnd, getk_mem⟩

theorem mem_setk_iff {k k' : String} {v v' : α} {m : List (String × α)}
    (hnd : (keys m).Nodup) :
    (k', v') ∈ setk k v m ↔ (k' = k ∧ v' = v) ∨ (k' ≠ k ∧ (k', v') ∈ m) := by
  have hnd' := nodup_keys_setk (k := k) (v := v) hnd
  constructor
  · intro h
    have hg := mem_getk hnd' h
    by_cases hk : k' = k
    · subst hk
      rw [getk_setk_self] at hg
      exact Or.inl ⟨rfl, (Option.some.inj hg).symm⟩
    · rw [getk_setk_ne hk] at hg
      exact Or.inr ⟨hk, getk_mem hg⟩
  · rintro (⟨rfl, rfl⟩ | ⟨hk, h⟩)
    · exact getk_mem getk_setk_self
    · exact getk_mem (by rw [getk_setk_ne hk]; exact mem_getk hnd h)

theorem mem_delk_iff {k k' : String} {v' : α} {m : List (String × α)} :
    (k', v') ∈ delk k m ↔ k' ≠ k ∧ (k', v') ∈ m := by
  induction m with
  | nil => simp [delk]
  | cons e rest ih =>
    rcases e with ⟨ek, ev⟩
    by_cases he : ek = k
    · subst he
      rw [show delk ek ((ek, ev) :: rest) = delk ek rest from by simp [delk]]
      rw [ih]
      simp only [List.mem_cons]
      constructor
      · rintro ⟨h1, h2⟩
        exact ⟨h1, Or.inr h2⟩
      · rintro ⟨h1, h | h⟩
        · injection h with ha hb
          exact absurd ha h1
        · exact ⟨h1, h⟩
    · rw [show delk k ((ek, ev) :: rest) = (ek, ev) :: delk k rest from by simp [delk, he]]
      simp only [List.mem_cons, ih]
      constructor
      · rintro (h | ⟨h1, h2⟩)
        · injection h with ha hb
          subst ha
          subst hb
          exact ⟨he, Or.inl rfl⟩
        · exact ⟨h1, Or.inr h2⟩
      · rintro ⟨h1, h | h⟩
        · exact Or.inl h
        · exact Or.inr ⟨h1, h⟩

/-! ## Data model

Entity records as stored by `StorageManager` (storage.js) and produced by
the scraper (`lib/thread-parser.js`, `extractTweetData`). -/

/-- One media attachment of a tweet (`extractMedia` pushes records with a
`type` and a url-like payload; the extra per-kind fields are carried in
`url`). -/
structure MediaItem where
  mtype : String
  url : String
  deriving DecidableEq, Repr

/-- One external link of a tweet (`extractLinks`). -/
structure Link where
  url : String
  display : String
  deriving DecidableEq, Repr

/-- One post of a thread, as produced by `extractTweetData`. -/
structure Tweet where
  id : String
  text : String
  timestamp : Option String
  authorUsername : String
  authorName : String
  media : List MediaItem
  isReply : Bool
  hasQuoteTweet : Bool
  links : List Link
  deriving DecidableEq, Repr

/-- The derived `metadata` aggregate computed by `saveThread`. -/
structure ThreadMeta where
  tweetCount : Nat
  likes : Int
  retweets : Int
  replies : Int
  hasMedia : Bool
  language : String
  deriving DecidableEq, Repr

/-- A stored thread record, exactly the object literal built in
`saveThread` (storage.js:79-98); `lastModified` is only ever added by
`updateThread`, so a freshly saved thread has none. -/
structure Thread where
  id : String
  url : String
  authorUsername : String
  authorName : String
  authorAvatar : String
  tweets : List Tweet
  savedAt : Nat
  lastAccessed : Nat
  tags : List String
  collectionId : String
  metadata : ThreadMeta
  lastModified : Option Nat
  deriving DecidableEq, Repr

/-- A collection record.  The `default` collection created by
`setupInitialStorage` carries only `id`, `name`, `createdAt` and
`threadIds`; `createCollection` additionally sets `description`,
`parentId` (null) and `color`, so those are optional here. -/
structure Collection where
  id : String
  name : String
  description : Option String
  createdAt : Nat
  threadIds : List String
  parentId : Option String
  color : Option String
  deriving DecidableEq, Repr

/-- A tag record (`createTag`). -/
structure Tag where
  id : String
  name : String
  color : String
  createdAt : Nat
  threadCount : Int
  deriving DecidableEq, Repr

/-- The singleton `metadata` document. -/
structure Metadata where
  version : Nat
  installedAt : Nat
  lastSync : Option Nat
  threadCount : Int
  storageUsed : Nat
  deriving DecidableEq, Repr

/-- The part of the `auth` document storage.js reads (`getUser` returns
`auth.user`, and `saveThread` only consults `user?.isPremium`). -/
structure User where
  isPremium : Bool
  deriving DecidableEq, Repr

/-- The capture payload accepted by `saveThread` (shape produced by the
DOM scraper: author identity, ordered tweet list, optional engagement
counts and language). -/
structure Capture where
  url : String
  authorUsername : String
  authorName : String
  authorAvatar : String
  tweets : List Tweet
  likes : Option Int
  retweets : Option Int
  replies : Option Int
  language : Option String
  deriving DecidableEq, Repr

/-- The whole persisted store: the documents behind the storage keys
`threads`, `collections`, `tags`, `metadata` and `auth` (the `userPrefs`
and `syncState` documents are untouched by every operation modelled
here). -/
structure State where
  threads : List (String × Thread)
  collections : List (String × Collection)
  tags : List (String × Tag)
  metadata : Metadata
  user : Option User
  deriving DecidableEq, Repr

/-! ## Operations (storage.js) -/

/-- `MAX_FREE_THREADS` (storage.js:15). -/
def MAX_FREE_THREADS : Int := 50

/-- Case-insensitive substring containment:
`hay.toLowerCase().includes(q.toLowerCase())`. -/
def containsCI (hay q : String) : Bool :=
  decide ((q.data.map Char.toLower) <:+: (hay.data.map Char.toLower))

/-- `user?.isPremium` is truthy (storage.js:73). -/
def isPremiumUser (s : State) : Bool :=
  match s.user with
  | some u => u.isPremium
  | none => false

/-- `'/'.split` on a character list (the behavior of
`url.split('/')` for the single-character separator). -/
def splitOnChar (c : Char) : List Char → List (List Char)
  | [] => [[]]
  | a :: rest =>
    if a = c then [] :: splitOnChar c rest
    else
      match splitOnChar c rest with
      | [] => [[a]]
      | h :: t => (a :: h) :: t

/-- `generateThreadId` (storage.js:606-609): the last `/`-component of the
url (or the timestamp when that component is empty/falsy), wrapped as
`thread_<base>_<now>`. -/
def generateThreadId (d : Capture) (now : Nat) : String :=
  let last := ((splitOnChar '/' d.url.data).getLast?.getD [])
  let baseId := if last.isEmpty then toString now else String.mk last
  "thread_" ++ baseId ++ "_" ++ toString now

/-- Filter `tid` out of collection `k`'s `threadIds` when `k` exists
(the "remove from previous collection" step, storage.js:260-263). -/
def removeFromCol (cols : List (String × Collection)) (k tid : String) :
    List (String × Collection) :=
  match getk k cols with
  | some c => setk k { c with threadIds := c.threadIds.filter (· ≠ tid) } cols
  | none => cols

/-- Append `tid` to collection `k`'s `threadIds` unless already present
(the "add to new collection" step, storage.js:266-268; the missing-key
branch is unreachable from `addThreadToCollection`, whose guard already
checked the collection exists). -/
def addToCol (cols : List (String × Collection)) (k tid : String) :
    List (String × Collection) :=
  match getk k cols with
  | some c =>
    if c.threadIds.contains tid then cols
    else setk k { c with threadIds := c.threadIds ++ [tid] } cols
  | none => cols

/-- `addThreadToCollection` (storage.js:250-278): returns `false` without
mutation when either id is unknown; otherwise removes the thread id from
its previous collection's `threadIds` (when that collection exists and
the stored `collectionId` is truthy), appends it to the new collection's
`threadIds` unless already present, and points the thread's
`collectionId` at the new collection. -/
def addThreadToCollection (s : State) (threadId collectionId : String) : State × Bool :=
  match getk collectionId s.collections, getk threadId s.threads with
  | some _, some th =>
    let cols1 :=
      if th.collectionId ≠ "" then removeFromCol s.collections th.collectionId threadId
      else s.collections
    let cols2 := addToCol cols1 collectionId threadId
    ({ s with collections := cols2,
              threads := setk threadId { th with collectionId := collectionId } s.threads },
     true)
  | _, _ => (s, false)

/-- `removeThreadFromCollection` (storage.js:280-294): filters the thread
id out of the collection's `threadIds`; it does NOT touch the thread
record itself. -/
def removeThreadFromCollection (s : State) (threadId collectionId : String) : State × Bool :=
  match getk collectionId s.collections with
  | some col =>
    let col' : Collection := { col with threadIds := col.threadIds.filter (· ≠ threadId) }
    ({ s with collections := setk collectionId col' s.collections }, true)
  | none => (s, false)

/-- `saveThread` (storage.js:66-117).  The quota check precedes every
write; on success the thread is materialized, counted, and appended to
the `default` collection via `addThreadToCollection`. -/
inductive SaveErr where
  | storageLimitReached
  deriving DecidableEq, Repr

def saveThread (s : State) (d : Capture) (now used : Nat) : State × Except SaveErr Thread :=
  if isPremiumUser s = false ∧ s.metadata.threadCount ≥ MAX_FREE_THREADS then
    (s, .error .storageLimitReached)
  else
    let tid := generateThreadId d now
    let thread : Thread :=
      { id := tid
        url := d.url
        authorUsername := d.authorUsername
        authorName := d.authorName
        authorAvatar := d.authorAvatar
        tweets := d.tweets
        savedAt := now
        lastAccessed := now
        tags := []
        collectionId := "default"
        metadata :=
          { tweetCount := d.tweets.length
            likes := d.likes.getD 0
            retweets := d.retweets.getD 0
            replies := d.replies.getD 0
            hasMedia := d.tweets.any (fun t => t.media.length > 0)
            language := d.language.getD "en" }
        lastModified := none }
    let s1 : State :=
      { s with threads := setk tid thread s.threads,
               metadata := { s.metadata with
                              threadCount := s.metadata.threadCount + 1,
                              storageUsed := used } }
    let s2 := (addThreadToCollection s1 tid "default").1
    (s2, .ok thread)

/-- `deleteThread` (storage.js:155-175): when the id exists, first detach
it from its owning collection, then drop the record and decrement
`metadata.threadCount`; otherwise return `false` with no writes. -/
def deleteThread (s : State) (threadId : String) (used : Nat) : State × Bool :=
  match getk threadId s.threads with
  | some th =>
    let s1 := (removeThreadFromCollection s threadId th.collectionId).1
    ({ s1 with threads := delk threadId s1.threads,
               metadata := { s1.metadata with
                              threadCount := s1.metadata.threadCount - 1,
                              storageUsed := used } },
     true)
  | none => (s, false)

/-- Errors of `deleteCollection`: the guarded `FORBIDDEN` throw for the
default collection (storage.js:224-226), and the uncaught TypeError the
loop body would raise on `collections.default.threadIds.push` if the
default collection were absent. -/
inductive DelColErr where
  | forbidden
  | crash
  deriving DecidableEq, Repr

/-- One iteration of the reassignment loop in `deleteCollection`
(storage.js:233-238): an existing member thread is repointed at
`default` and its id pushed onto the default collection's list. -/
def moveToDefault (acc : List (String × Thread) × List (String × Collection))
    (tid : String) :
    Except DelColErr (List (String × Thread) × List (String × Collection)) :=
  match getk tid acc.1 with
  | some th =>
    match getk "default" acc.2 with
    | some dcol =>
      .ok (setk tid { th with collectionId := "default" } acc.1,
           setk "default" { dcol with threadIds := dcol.threadIds ++ [tid] } acc.2)
    | none => .error .crash
  | none => .ok acc

/-- `deleteCollection` (storage.js:223-248). -/
def deleteCollection (s : State) (collectionId : String) :
    State × Except DelColErr Bool :=
  if collectionId = "default" then (s, .error .forbidden)
  else
    let tids := ((getk collectionId s.collections).map Collection.threadIds).getD []
    match tids.foldlM moveToDefault (s.threads, s.collections) with
    | .ok (ths, cols) =>
      ({ s with threads := ths, collections := delk collectionId cols }, .ok true)
    | .error e => (s, .error e)

/-- `addTagToThread` (storage.js:321-339): a guarded idempotent insert
that bumps the tag's `threadCount` only when the tag was not yet on the
thread. -/
def addTagToThread (s : State) (threadId tagId : String) : State × Bool :=
  match getk threadId s.threads, getk tagId s.tags with
  | some th, some tg =>
    if th.tags.contains tagId then (s, false)
    else
      ({ s with threads := setk threadId { th with tags := th.tags ++ [tagId] } s.threads,
                tags := setk tagId { tg with threadCount := tg.threadCount + 1 } s.tags },
       true)
  | _, _ => (s, false)

/-- `removeTagFromThread` (storage.js:341-357): when both ids exist it
unconditionally filters the tag out of the thread's list and decrements
the tag's `threadCount`, floored at zero — even when the thread did not
carry the tag. -/
def removeTagFromThread (s : State) (threadId tagId : String) : State × Bool :=
  match getk threadId s.threads, getk tagId s.tags with
  | some th, some tg =>
    ({ s with threads := setk threadId { th with tags := th.tags.filter (· ≠ tagId) } s.threads,
              tags := setk tagId { tg with threadCount := max 0 (tg.threadCount - 1) } s.tags },
     true)
  | _, _ => (s, false)

/-- `deleteTag` (storage.js:359-381): strips the tag id from every thread
that carries it, then drops the tag record. -/
def deleteTag (s : State) (tagId : String) : State × Bool :=
  match getk tagId s.tags with
  | none => (s, false)
  | some _ =>
    let threads := s.threads.map (fun e =>
      if e.2.tags.contains tagId then
        (e.1, { e.2 with tags := e.2.tags.filter (· ≠ tagId) })
      else e)
    ({ s with threads := threads, tags := delk tagId s.tags }, true)

/-! ## `getThreads` filtering (storage.js:124-153) -/

/-- The optional filter object accepted by `getThreads`.  `none` stands
for an absent (or `undefined`) key of the JS `filters` object. -/
structure Filters where
  collectionId : Option String := none
  tags : Option (List String) := none
  author : Option String := none
  search : Option String := none
  deriving DecidableEq, Repr

/-- `Object.keys(filters).length === 0` (storage.js:128). -/
def filtersIsEmpty (f : Filters) : Bool :=
  f.collectionId.isNone && f.tags.isNone && f.author.isNone && f.search.isNone

/-- The filter predicate of storage.js:134-151, including the JS
truthiness guards: an empty-string `collectionId`/`author`/`search` and
an empty `tags` array impose no constraint. -/
def threadMatches (f : Filters) (th : Thread) : Bool :=
  if (match f.collectionId with
      | some c => c != "" && th.collectionId != c
      | none => false) then false
  else if (match f.tags with
      | some ts => !ts.isEmpty && !(ts.any (fun tg => th.tags.contains tg))
      | none => false) then false
  else if (match f.author with
      | some a => a != "" && !(containsCI th.authorUsername a)
      | none => false) then false
  else
    match f.search with
    | some q => if q != "" then th.tweets.any (fun tw => containsCI tw.text q) else true
    | none => true

/-- `getThreads(filters)` (storage.js:124-153). -/
def getThreadsF (s : State) (f : Filters) : List (String × Thread) :=
  if filtersIsEmpty f then s.threads
  else s.threads.filter (fun e => threadMatches f e.2)

/-! ## Search (storage.js:424-472, 625-637) -/

/-- One match record pushed by `searchThreads`. -/
inductive SearchMatch where
  | tweet (index : Nat) (snippet : String)
  | author (value : String)
  | authorName (value : String)
  deriving DecidableEq, Repr

/-- One search result entry; `matchRecords` embeds the JS `matches`
array (`matches` is a reserved word in Lean). -/
structure SearchResult where
  thread : Thread
  score : Int
  matchRecords : List SearchMatch
  deriving DecidableEq, Repr

/-- Pagination options of `searchThreads`. -/
structure SearchOptions where
  limit : Option Nat := none
  offset : Option Nat := none
  deriving DecidableEq, Repr

/-- Index of the first occurrence of `needle` in `hay`
(`String.prototype.indexOf`), `none` when absent. -/
def firstInfixIdx (needle hay : List Char) : Option Nat :=
  (List.range (hay.length + 1)).find? (fun i => needle.isPrefixOf (hay.drop i))

/-- `getSnippet` (storage.js:625-637): the query occurrence with up to 50
characters of context on each side, ellipsized where truncated, or the
first 100 characters plus an ellipsis when the query cannot be located. -/
def getSnippet (text query : String) : String :=
  match firstInfixIdx (query.data.map Char.toLower) (text.data.map Char.toLower) with
  | none => String.mk (text.data.take 100) ++ "..."
  | some index =>
    let contextLength := 50
    let start := index - contextLength
    let stop := min text.length (index + query.length + contextLength)
    let snippet := String.mk ((text.data.drop start).take (stop - start))
    let snippet := if start > 0 then "..." ++ snippet else snippet
    if stop < text.length then snippet ++ "..." else snippet

/-- The per-thread scoring loop body of `searchThreads`
(storage.js:430-451): +10 and a match record per tweet whose text
contains the query case-insensitively, +20 for a username hit, +15 for a
display-name hit, accumulated in that order. -/
def scoreThread (query : String) (th : Thread) : Int × List SearchMatch :=
  let tweetMatches := (th.tweets.enum.filter (fun p => containsCI p.2.text query)).map
    (fun p => SearchMatch.tweet p.1 (getSnippet p.2.text query))
  let score1 : Int := 10 * (tweetMatches.length : Int)
  let acc2 :=
    if containsCI th.authorUsername query then
      (score1 + 20, tweetMatches ++ [SearchMatch.author th.authorUsername])
    else (score1, tweetMatches)
  if containsCI th.authorName query then
    (acc2.1 + 15, acc2.2 ++ [SearchMatch.authorName th.authorName])
  else acc2

/-- `searchThreads(query, options)` (storage.js:424-472): collect the
positively-scored threads in iteration order, sort descending by score
(`results.sort((a, b) => b.score - a.score)`), then slice when a nonzero
`limit` is given. -/
def searchThreads (s : State) (query : String) (opts : SearchOptions) : List SearchResult :=
  let results := s.threads.filterMap (fun e =>
    let sc := scoreThread query e.2
    if sc.1 > 0 then some ⟨e.2, sc.1, sc.2⟩ else none)
  let sorted := results.insertionSort (fun a b => b.score ≤ a.score)
  match opts.limit with
  | some l => if l ≠ 0 then (sorted.drop (opts.offset.getD 0)).take l else sorted
  | none => sorted

/-! ## Export (storage.js:550-564)

`exportThread(id, "json")` returns `JSON.stringify(thread, null, 2)`.
The JSON text layer (`JSON.stringify` / `JSON.parse`) is the host
platform's codec, not code of this repository, and on JSON-representable
values parse-after-stringify is the identity; we therefore work at the
level of the JSON value tree: `encThread` is the JSON image
`JSON.stringify` serializes (all fields, in insertion order), and
`decThread` reads a thread record back out of such a tree. -/

inductive Json where
  | str (s : String)
  | num (n : Int)
  | bool (b : Bool)
  | null
  | arr (elems : List Json)
  | obj (fields : List (String × Json))

def encOptStr : Option String → Json
  | some s => .str s
  | none => .null

def encMedia (m : MediaItem) : Json :=
  .obj [("type", .str m.mtype), ("url", .str m.url)]

def encLink (l : Link) : Json :=
  .obj [("url", .str l.url), ("display", .str l.display)]

def encTweet (t : Tweet) : Json :=
  .obj [("id", .str t.id), ("text", .str t.text), ("timestamp", encOptStr t.timestamp),
        ("authorUsername", .str t.authorUsername), ("authorName", .str t.authorName),
        ("media", .arr (t.media.map encMedia)), ("isReply", .bool t.isReply),
        ("hasQuoteTweet", .bool t.hasQuoteTweet), ("links", .arr (t.links.map encLink))]

def encThreadMeta (m : ThreadMeta) : Json :=
  .obj [("tweetCount", .num m.tweetCount), ("likes", .num m.likes),
        ("retweets", .num m.retweets), ("replies", .num m.replies),
        ("hasMedia", .bool m.hasMedia), ("language", .str m.language)]

/-- The JSON image of a stored thread record: every field of the record,
in the insertion order of `saveThread` (with `lastModified` appearing
only when `updateThread` ever set it, as in the JS object). -/
def encThread (t : Thread) : Json :=
  .obj ([("id", .str t.id), ("url", .str t.url),
         ("authorUsername", .str t.authorUsername),
         ("authorName", .str t.authorName),
         ("authorAvatar", .str t.authorAvatar),
         ("tweets", .arr (t.tweets.map encTweet)),
         ("savedAt", .num t.savedAt),
         ("lastAccessed", .num t.lastAccessed),
         ("tags", .arr (t.tags.map Json.str)),
         ("collectionId", .str t.collectionId),
         ("metadata", encThreadMeta t.metadata)]
        ++ (match t.lastModified with
            | some n => [("lastModified", Json.num n)]
            | none => []))

def decStr : Json → Option String
  | .str s => some s
  | _ => none

/-- Decode every element of a JSON array, failing when any element
fails. -/
def decodeList {α : Type} (dec : Json → Option α) : List Json → Option (List α)
  | [] => some []
  | b :: rest => do
    let a ← dec b
    let as ← decodeList dec rest
    pure (a :: as)

def decOptStr : Json → Option (Option String)
  | .str s => some (some s)
  | .null => some none
  | _ => none

def decMedia : Json → Option MediaItem
  | .obj [("type", .str t), ("url", .str u)] => some ⟨t, u⟩
  | _ => none

def decLink : Json → Option Link
  | .obj [("url", .str u), ("display", .str d)] => some ⟨u, d⟩
  | _ => none

def decTweet : Json → Option Tweet
  | .obj [("id", .str i), ("text", .str tx), ("timestamp", ts),
          ("authorUsername", .str au), ("authorName", .str an),
          ("media", .arr ms), ("isReply", .bool ir),
          ("hasQuoteTweet", .bool hq), ("links", .arr ls)] => do
    let timestamp ← decOptStr ts
    let media ← decodeList decMedia ms
    let links ← decodeList decLink ls
    pure { id := i, text := tx, timestamp := timestamp, authorUsername := au,
           authorName := an, media := media, isReply := ir, hasQuoteTweet := hq,
           links := links }
  | _ => none

def decThreadMeta : Json → Option ThreadMeta
  | .obj [("tweetCount", .num tc), ("likes", .num l), ("retweets", .num r),
          ("replies", .num rp), ("hasMedia", .bool hm), ("language", .str lg)] =>
    some { tweetCount := tc.toNat, likes := l, retweets := r, replies := rp,
           hasMedia := hm, language := lg }
  | _ => none

/-- Pop an expected string field off the front of an object's field
list. -/
def popStr (key : String) : List (String × Json) → Option (String × List (String × Json))
  | (k, .str v) :: rest => if k = key then some (v, rest) else none
  | _ => none

/-- Pop an expected numeric field. -/
def popNum (key : String) : List (String × Json) → Option (Int × List (String × Json))
  | (k, .num v) :: rest => if k = key then some (v, rest) else none
  | _ => none

/-- Pop an expected array field. -/
def popArr (key : String) : List (String × Json) → Option (List Json × List (String × Json))
  | (k, .arr v) :: rest => if k = key then some (v, rest) else none
  | _ => none

/-- Pop an expected field of any shape. -/
def popField (key : String) : List (String × Json) → Option (Json × List (String × Json))
  | (k, v) :: rest => if k = key then some (v, rest) else none
  | _ => none

/-- Decode the optional trailing `lastModified` field. -/
def decTail : List (String × Json) → Option (Option Nat)
  | [] => some none
  | [("lastModified", Json.num n)] => some (some n.toNat)
  | _ => none

/-- `Option.bind`, spelled out (keeps the decoder compilable in
reasonable time). -/
def obind {α β : Type} : Option α → (α → Option β) → Option β
  | none, _ => none
  | some a, f => f a

def decThread (j : Json) : Option Thread :=
  match j with
  | .obj fields =>
    obind (popStr "id" fields) fun p1 =>
    obind (popStr "url" p1.2) fun p2 =>
    obind (popStr "authorUsername" p2.2) fun p3 =>
    obind (popStr "authorName" p3.2) fun p4 =>
    obind (popStr "authorAvatar" p4.2) fun p5 =>
    obind (popArr "tweets" p5.2) fun p6 =>
    obind (popNum "savedAt" p6.2) fun p7 =>
    obind (popNum "lastAccessed" p7.2) fun p8 =>
    obind (popArr "tags" p8.2) fun p9 =>
    obind (popStr "collectionId" p9.2) fun p10 =>
    obind (popField "metadata" p10.2) fun p11 =>
    obind (decodeList decTweet p6.1) fun tweets =>
    obind (decodeList decStr p9.1) fun tags =>
    obind (decThreadMeta p11.1) fun metadata =>
    obind (decTail p11.2) fun lastModified =>
    some { id := p1.1, url := p2.1, authorUsername := p3.1, authorName := p4.1,
           authorAvatar := p5.1, tweets := tweets, savedAt := p7.1.toNat,
           lastAccessed := p8.1.toNat, tags := tags, collectionId := p10.1,
           metadata := metadata, lastModified := lastModified }
  | _ => none

@[simp] theorem obind_some {α β : Type} (a : α) (f : α → Option β) :
    obind (some a) f = f a := rfl

/-- The result of `exportThread`: the `"text"` and `"markdown"` arms
render locale-dependent strings (`toLocaleString`), so they are carried
as the thread they would render; the `"json"` arm is the JSON value tree
of the record. -/
inductive ExportOut where
  | jsonOut (j : Json)
  | textOut (th : Thread)
  | markdownOut (th : Thread)

/-- `exportThread(threadId, format)` (storage.js:550-564): `none` when
the thread is missing or the format is unsupported. -/
def exportThread (s : State) (threadId format : String) : Option ExportOut :=
  match getk threadId s.threads with
  | none => none
  | some th =>
    match format with
    | "text" => some (.textOut th)
    | "json" => some (.jsonOut (encThread th))
    | "markdown" => some (.markdownOut th)
    | _ => none

/-! ## Store invariants -/

/-- The id-keyed documents have unique keys (always true of JS objects). -/
def WFState (s : State) : Prop :=
  (keys s.threads).Nodup ∧ (keys s.collections).Nodup ∧ (keys s.tags).Nodup

/-- `tid` is listed in the `threadIds` of the collection stored under
`cid`. -/
def memberOfCollection (cols : List (String × Collection)) (cid tid : String) : Prop :=
  ∃ col, getk cid cols = some col ∧ tid ∈ col.threadIds

/-- Boolean form of `memberOfCollection`. -/
def memberOfCollectionB (cols : List (String × Collection)) (cid tid : String) : Bool :=
  match getk cid cols with
  | some col => col.threadIds.contains tid
  | none => false

theorem memberOfCollectionB_iff {cols : List (String × Collection)} {cid tid : String} :
    memberOfCollectionB cols cid tid = true ↔ memberOfCollection cols cid tid := by
  unfold memberOfCollectionB memberOfCollection
  cases h : getk cid cols with
  | none =>
    simp only [Bool.false_eq_true, false_iff]
    rintro ⟨col, hc, _⟩
    cases hc
  | some col =>
    rw [List.elem_iff]
    constructor
    · intro hm
      exact ⟨col, rfl, hm⟩
    · rintro ⟨col', hc, hm⟩
      cases hc
      exact hm

instance (cols : List (String × Collection)) (cid tid : String) :
    Decidable (memberOfCollection cols cid tid) :=
  decidable_of_iff _ memberOfCollectionB_iff

/-- Referential consistency: every stored thread's `collectionId` names a
collection that lists the thread's id. -/
def RefConsistent (s : State) : Prop :=
  ∀ e ∈ s.threads, memberOfCollection s.collections e.2.collectionId e.1

/-- The distinguished `default` collection exists. -/
def HasDefault (s : State) : Prop :=
  (getk "default" s.collections).isSome = true

/-- Number of stored threads whose tag list contains `g`. -/
def tagCount (threads : List (String × Thread)) (g : String) : Nat :=
  threads.countP (fun e => e.2.tags.contains g)

/-- Tag-count consistency: every tag's denormalized `threadCount` equals
the number of threads carrying it. -/
def TagConsistent (s : State) : Prop :=
  ∀ e ∈ s.tags, e.2.threadCount = (tagCount s.threads e.1 : Int)

instance (s : State) : Decidable (WFState s) := by
  unfold WFState
  infer_instance

instance (s : State) : Decidable (RefConsistent s) := by
  unfold RefConsistent
  infer_instance

instance (s : State) : Decidable (HasDefault s) := by
  unfold HasDefault
  infer_instance

instance (s : State) : Decidable (TagConsistent s) := by
  unfold TagConsistent
  infer_instance

/-! ## Concrete fixtures (used by counterexamples and witnesses) -/

def mkMeta (c : Int) : Metadata :=
  { version := 1, installedAt := 0, lastSync := none, threadCount := c, storageUsed := 0 }

def defaultCollection0 : Collection :=
  { id := "default", name := "Uncategorized", description := none, createdAt := 0,
    threadIds := [], parentId := none, color := none }

def tweetHello : Tweet :=
  { id := "901", text := "hello world", timestamp := none, authorUsername := "alice",
    authorName := "Alice", media := [], isReply := false, hasQuoteTweet := false,
    links := [] }

def threadT1 : Thread :=
  { id := "t1", url := "https://x.com/alice/status/901", authorUsername := "alice",
    authorName := "Alice", authorAvatar := "av", tweets := [tweetHello], savedAt := 1,
    lastAccessed := 1, tags := [], collectionId := "default",
    metadata := { tweetCount := 1, likes := 0, retweets := 0, replies := 0,
                  hasMedia := false, language := "en" },
    lastModified := none }

/-- One thread filed in the default collection. -/
def store1 : State :=
  { threads := [("t1", threadT1)],
    collections := [("default", { defaultCollection0 with threadIds := ["t1"] })],
    tags := [], metadata := mkMeta 1, user := none }

def tagG : Tag :=
  { id := "g", name := "geo", color := "#FF6B6B", createdAt := 0, threadCount := 1 }

def threadT1g : Thread :=
  { threadT1 with tags := ["g"] }

def threadT2 : Thread :=
  { threadT1 with id := "t2", tags := [] }

/-- Thread `t1` carries tag `g` (count 1); thread `t2` carries no tag. -/
def tagStore : State :=
  { threads := [("t1", threadT1g), ("t2", threadT2)],
    collections := [("default", { defaultCollection0 with threadIds := ["t1", "t2"] })],
    tags := [("g", tagG)], metadata := mkMeta 2, user := none }

/-- An empty store whose `metadata.threadCount` sits at the free-tier
limit, owned by a non-premium (absent) user. -/
def quotaStore : State :=
  { threads := [], collections := [("default", defaultCollection0)], tags := [],
    metadata := mkMeta 50, user := none }

/-- A fresh store as `setupInitialStorage` would create it. -/
def freshState : State :=
  { threads := [], collections := [("default", defaultCollection0)], tags := [],
    metadata := mkMeta 0, user := none }

/-- A capture payload with an empty post list. -/
def emptyCapture : Capture :=
  { url := "https://x.com/a/status/9", authorUsername := "a", authorName := "A",
    authorAvatar := "", tweets := [], likes := none, retweets := none, replies := none,
    language := none }

/-- A well-formed capture payload with one post. -/
def captureFix : Capture :=
  { url := "https://x.com/bob/status/77", authorUsername := "bob", authorName := "Bob",
    authorAvatar := "", tweets := [tweetHello], likes := some 3, retweets := none,
    replies := none, language := none }

/-! ## C7 — default-collection protection -/

/-- C7: for every store state, `deleteCollection("default")` fails with
`FORBIDDEN` (the guarded throw of storage.js:224-226) and leaves the
store unchanged. -/
theorem deleteCollection_default_forbidden (s : State) :
    deleteCollection s "default" = (s, .error .forbidden) := by
  simp [deleteCollection]

/-! ## C6 — idempotent delete -/

/-- C6: deleting an existing thread returns `true` and decrements
`metadata.threadCount` by exactly one; repeating the delete on the same
id returns `false` and changes nothing at all. -/
theorem deleteThread_idempotent (s : State) (tid : String) (used usedX : Nat)
    (th : Thread) (hth : getk tid s.threads = some th) :
    (deleteThread s tid used).2 = true ∧
    (deleteThread s tid used).1.metadata.threadCount = s.metadata.threadCount - 1 ∧
    deleteThread (deleteThread s tid used).1 tid usedX = ((deleteThread s tid used).1, false) := by
  simp only [deleteThread, hth]
  cases hrc : getk th.collectionId s.collections with
  | some col =>
    simp [removeThreadFromCollection, hrc, deleteThread, getk_delk_self]
  | none =>
    simp [removeThreadFromCollection, hrc, deleteThread, getk_delk_self]

/-- Witness for C6 at a concrete store. -/
theorem deleteThread_idempotent_witness :
    (deleteThread store1 "t1" 7).2 = true ∧
    (deleteThread store1 "t1" 7).1.metadata.threadCount = store1.metadata.threadCount - 1 ∧
    deleteThread (deleteThread store1 "t1" 7).1 "t1" 8 = ((deleteThread store1 "t1" 7).1, false) :=
  deleteThread_idempotent store1 "t1" 7 8 threadT1 rfl

/-! ## C3 — quota enforcement -/

/-- `addThreadToCollection` never touches the `metadata` document. -/
theorem addThreadToCollection_metadata (s : State) (tid cid : String) :
    (addThreadToCollection s tid cid).1.metadata = s.metadata := by
  unfold addThreadToCollection
  cases getk cid s.collections <;> cases getk tid s.threads <;> rfl

/-- `addThreadToCollection` never touches the `tags` document. -/
theorem addThreadToCollection_tags (s : State) (tid cid : String) :
    (addThreadToCollection s tid cid).1.tags = s.tags := by
  unfold addThreadToCollection
  cases getk cid s.collections <;> cases getk tid s.threads <;> rfl

/-- `addThreadToCollection` never touches the `auth` document. -/
theorem addThreadToCollection_user (s : State) (tid cid : String) :
    (addThreadToCollection s tid cid).1.user = s.user := by
  unfold addThreadToCollection
  cases getk cid s.collections <;> cases getk tid s.threads <;> rfl

/-- C3: when the stored user is not premium and `metadata.threadCount`
has reached `MAX_FREE_THREADS`, `saveThread` fails with
`STORAGE_LIMIT_REACHED` and performs no writes (the returned store is the
input store, so the thread map and `threadCount` are untouched); and any
successful save increments `metadata.threadCount` by exactly one, so
after 50 successful non-premium saves from a fresh store the counter has
reached the limit and the next save fails this way. -/
theorem saveThread_quota (s : State) (d : Capture) (now used : Nat) :
    (isPremiumUser s = false → s.metadata.threadCount ≥ MAX_FREE_THREADS →
      saveThread s d now used = (s, .error .storageLimitReached)) ∧
    (∀ s' th, saveThread s d now used = (s', .ok th) →
      s'.metadata.threadCount = s.metadata.threadCount + 1) := by
  constructor
  · intro hp hq
    simp [saveThread, hp, hq]
  · intro s' th h
    by_cases hc : isPremiumUser s = false ∧ s.metadata.threadCount ≥ MAX_FREE_THREADS
    · rw [saveThread, if_pos hc] at h
      injection h with h1 h2
      exact Except.noConfusion h2
    · rw [saveThread, if_neg hc] at h
      injection h with h1 h2
      subst h1
      rw [addThreadToCollection_metadata]

/-- Witness for C3 at a concrete store sitting exactly at the limit. -/
theorem saveThread_quota_witness :
    saveThread quotaStore captureFix 7 123 = (quotaStore, .error .storageLimitReached) :=
  (saveThread_quota quotaStore captureFix 7 123).1 rfl (by decide)

/-! ## C4 — empty-thread handling (the code has no `EMPTY_THREAD` check) -/

/-- Counterexample to C4 as stated: `saveThread` on a capture whose post
list is empty does not fail at all — it succeeds (returns the saved
thread) and increments `metadata.threadCount` from 0 to 1. -/
theorem saveThread_empty_posts_counterexample :
    (saveThread freshState emptyCapture 9 42).2.isOk = true ∧
    (saveThread freshState emptyCapture 9 42).1.metadata.threadCount = 1 := by
  constructor <;> rfl

/-- C4 (amended): `saveThread` applies no emptiness check to
`capture.posts`; whenever the quota gate passes, a capture with an empty
post list is saved as a thread with zero posts (`metadata.tweetCount =
0`) and `metadata.threadCount` is incremented by one. -/
theorem saveThread_empty_posts_saves (s : State) (d : Capture) (now used : Nat)
    (hd : d.tweets = [])
    (hq : ¬(isPremiumUser s = false ∧ s.metadata.threadCount ≥ MAX_FREE_THREADS)) :
    ∃ th, (saveThread s d now used).2 = .ok th ∧ th.tweets = [] ∧
      th.metadata.tweetCount = 0 ∧
      (saveThread s d now used).1.metadata.threadCount = s.metadata.threadCount + 1 := by
  rw [saveThread, if_neg hq]
  refine ⟨_, rfl, hd, ?_, ?_⟩
  · simp [hd]
  · rw [addThreadToCollection_metadata]

/-- Witness for the amended C4 at a concrete fresh store. -/
theorem saveThread_empty_posts_saves_witness :
    ∃ th, (saveThread freshState emptyCapture 9 42).2 = .ok th ∧ th.tweets = [] ∧
      th.metadata.tweetCount = 0 ∧
      (saveThread freshState emptyCapture 9 42).1.metadata.threadCount
        = freshState.metadata.threadCount + 1 :=
  saveThread_empty_posts_saves freshState emptyCapture 9 42 rfl (by decide)

/-! ## C10 — removing a tag the thread does not carry -/

/-- C10: when the thread and the tag both exist but the tag id is not in
the thread's tag list, `removeTagFromThread` still returns `true`,
leaves the thread record unchanged, and sets the tag's `threadCount` to
`max 0 (previous - 1)` — the counter is decremented (floored at zero)
even though nothing was detached. -/
theorem removeTagFromThread_absent (s : State) (tid gid : String) (th : Thread) (tg : Tag)
    (hth : getk tid s.threads = some th) (htg : getk gid s.tags = some tg)
    (hab : gid ∉ th.tags) :
    (removeTagFromThread s tid gid).2 = true ∧
    getk gid (removeTagFromThread s tid gid).1.tags
      = some { tg with threadCount := max 0 (tg.threadCount - 1) } ∧
    getk tid (removeTagFromThread s tid gid).1.threads = some th := by
  simp only [removeTagFromThread, hth, htg]
  refine ⟨by trivial, getk_setk_self, ?_⟩
  rw [getk_setk_self]
  have hf : th.tags.filter (· ≠ gid) = th.tags := by
    rw [List.filter_eq_self]
    intro a ha
    simp only [ne_eq, decide_eq_true_eq]
    intro hag
    exact hab (hag ▸ ha)
  rw [hf]

/-- Witness for C10: removing tag `g` from thread `t2` (which does not
carry it) returns `true` and drops the tag's count from 1 to 0. -/
theorem removeTagFromThread_absent_witness :
    (removeTagFromThread tagStore "t2" "g").2 = true ∧
    getk "g" (removeTagFromThread tagStore "t2" "g").1.tags
      = some { tagG with threadCount := max 0 (tagG.threadCount - 1) } ∧
    getk "t2" (removeTagFromThread tagStore "t2" "g").1.threads = some threadT2 :=
  removeTagFromThread_absent tagStore "t2" "g" threadT2 tagG rfl rfl (by decide)

/-! ## C9 — export round-trip -/

theorem decMedia_enc (m : MediaItem) : decMedia (encMedia m) = some m := by
  cases m
  rfl

theorem decLink_enc (l : Link) : decLink (encLink l) = some l := by
  cases l
  rfl

theorem decOptStr_enc (o : Option String) : decOptStr (encOptStr o) = some o := by
  cases o <;> rfl

theorem decStr_str (x : String) : decStr (Json.str x) = some x := rfl

/-- Decoding a mapped encoding pointwise recovers the original list. -/
theorem decodeList_enc {α : Type} (enc : α → Json) (dec : Json → Option α)
    (h : ∀ a, dec (enc a) = some a) (l : List α) :
    decodeList dec (l.map enc) = some l := by
  induction l with
  | nil => rfl
  | cons a rest ih => simp [decodeList, h, ih]

theorem decTweet_enc (t : Tweet) : decTweet (encTweet t) = some t := by
  cases t with
  | mk i tx ts au an me ir hq ls =>
    simp [encTweet, decTweet, decOptStr_enc, decodeList_enc _ _ decMedia_enc,
      decodeList_enc _ _ decLink_enc]

theorem decThreadMeta_enc (m : ThreadMeta) : decThreadMeta (encThreadMeta m) = some m := by
  cases m
  rfl

/-- Decoding the JSON image of a stored thread recovers the record
exactly — `encThread` serializes every field and `decThread` reads them
all back. -/
theorem decThread_enc (t : Thread) : decThread (encThread t) = some t := by
  cases t with
  | mk i u au an av tws sa la tgs cid md lm =>
    cases lm with
    | none =>
      have h1 : decThread (encThread ⟨i, u, au, an, av, tws, sa, la, tgs, cid, md, none⟩)
          = obind (decodeList decTweet (tws.map encTweet)) (fun tweets =>
              obind (decodeList decStr (tgs.map Json.str)) (fun tags =>
                obind (decThreadMeta (encThreadMeta md)) (fun metadata =>
                  some { id := i, url := u, authorUsername := au, authorName := an,
                         authorAvatar := av, tweets := tweets, savedAt := sa,
                         lastAccessed := la, tags := tags, collectionId := cid,
                         metadata := metadata, lastModified := none }))) := rfl
      rw [h1, decodeList_enc _ _ decTweet_enc, decodeList_enc _ _ decStr_str,
        decThreadMeta_enc]
      rfl
    | some n =>
      have h1 : decThread (encThread ⟨i, u, au, an, av, tws, sa, la, tgs, cid, md, some n⟩)
          = obind (decodeList decTweet (tws.map encTweet)) (fun tweets =>
              obind (decodeList decStr (tgs.map Json.str)) (fun tags =>
                obind (decThreadMeta (encThreadMeta md)) (fun metadata =>
                  some { id := i, url := u, authorUsername := au, authorName := an,
                         authorAvatar := av, tweets := tweets, savedAt := sa,
                         lastAccessed := la, tags := tags, collectionId := cid,
                         metadata := metadata, lastModified := some n }))) := rfl
      rw [h1, decodeList_enc _ _ decTweet_enc, decodeList_enc _ _ decStr_str,
        decThreadMeta_enc]
      rfl

/-- C9: for every stored thread id, `exportThread(id, "json")` returns
the JSON value tree serializing the stored record (all fields, none
omitted), and reading a thread record back out of that tree yields a
record structurally equal to the stored one. -/
theorem exportThread_json_roundtrip (s : State) (tid : String) (th : Thread)
    (hth : getk tid s.threads = some th) :
    exportThread s tid "json" = some (.jsonOut (encThread th)) ∧
    decThread (encThread th) = some th := by
  constructor
  · rw [exportThread, hth]
    rfl
  · exact decThread_enc th

/-- Witness for C9 at a concrete store. -/
theorem exportThread_json_roundtrip_witness :
    exportThread store1 "t1" "json" = some (.jsonOut (encThread threadT1)) ∧
    decThread (encThread threadT1) = some threadT1 :=
  exportThread_json_roundtrip store1 "t1" threadT1 rfl

/-! ## C5 — search scoring -/

/-- The spec's per-thread score formula: +10 per post containing the
query case-insensitively, +20 for a username hit, +15 for a display-name
hit. -/
def specScore (q : String) (th : Thread) : Int :=
  10 * (th.tweets.countP (fun tw => containsCI tw.text q) : Int)
    + (if containsCI th.authorUsername q then 20 else 0)
    + (if containsCI th.authorName q then 15 else 0)

/-- The spec's match-record count: one per matching post, one per author
hit of each kind. -/
def specMatchCount (q : String) (th : Thread) : Nat :=
  th.tweets.countP (fun tw => containsCI tw.text q)
    + (if containsCI th.authorUsername q then 1 else 0)
    + (if containsCI th.authorName q then 1 else 0)

theorem countP_enum {α : Type} (c : α → Bool) (l : List α) :
    l.enum.countP (fun p => c p.2) = l.countP c := by
  conv_rhs => rw [show l = l.enum.map Prod.snd from (List.enum_map_snd l).symm]
  rw [List.countP_map]
  rfl

/-- The accumulation loop of `searchThreads` computes exactly the spec's
score and number of match records. -/
theorem scoreThread_spec (q : String) (th : Thread) :
    (scoreThread q th).1 = specScore q th ∧
    (scoreThread q th).2.length = specMatchCount q th := by
  have hlen : ((th.tweets.enum.filter (fun p => containsCI p.2.text q)).map
      (fun p => SearchMatch.tweet p.1 (getSnippet p.2.text q))).length
      = th.tweets.countP (fun tw => containsCI tw.text q) := by
    rw [List.length_map, ← List.countP_eq_length_filter]
    exact countP_enum (fun tw => containsCI tw.text q) th.tweets
  unfold scoreThread specScore specMatchCount
  by_cases h1 : containsCI th.authorUsername q <;>
    by_cases h2 : containsCI th.authorName q <;>
      simp [h1, h2, hlen]

/-- The store holding one thread authored by `elonmusk` / "Elon Musk"
whose single post text does not contain "elon". -/
def threadElon : Thread :=
  { id := "e1", url := "https://x.com/elonmusk/status/42",
    authorUsername := "elonmusk", authorName := "Elon Musk", authorAvatar := "",
    tweets := [{ id := "42", text := "we are going to mars", timestamp := none,
                 authorUsername := "elonmusk", authorName := "Elon Musk", media := [],
                 isReply := false, hasQuoteTweet := false, links := [] }],
    savedAt := 2, lastAccessed := 2, tags := [], collectionId := "default",
    metadata := { tweetCount := 1, likes := 0, retweets := 0, replies := 0,
                  hasMedia := false, language := "en" },
    lastModified := none }

def elonStore : State :=
  { threads := [("e1", threadElon)],
    collections := [("default", { defaultCollection0 with threadIds := ["e1"] })],
    tags := [], metadata := mkMeta 1, user := none }

/-- C5: every result of `searchThreads` has a positive score equal to
the spec formula (+10 per matching post, +20 username, +15 display
name) with one match record per hit; every stored thread with a
positive spec score appears in the results (score-0 threads and only
they are excluded); the result list is sorted descending by score; and
the "elon" fixture yields exactly one result with score 35 and two
match records. -/
theorem searchThreads_scoring (s : State) (q : String) :
    (∀ r ∈ searchThreads s q {}, 0 < r.score ∧ r.score = specScore q r.thread ∧
        r.matchRecords.length = specMatchCount q r.thread) ∧
    (∀ e ∈ s.threads, 0 < specScore q e.2 →
        ∃ r ∈ searchThreads s q {}, r.thread = e.2) ∧
    List.Sorted (fun a b => b.score ≤ a.score) (searchThreads s q {}) ∧
    searchThreads elonStore "elon" {}
      = [{ thread := threadElon, score := 35,
           matchRecords := [SearchMatch.author "elonmusk",
                            SearchMatch.authorName "Elon Musk"] }] := by
  have hsearch : searchThreads s q {}
      = (s.threads.filterMap (fun e =>
          let sc := scoreThread q e.2
          if sc.1 > 0 then some ⟨e.2, sc.1, sc.2⟩ else none)).insertionSort
            (fun a b => b.score ≤ a.score) := rfl
  have hperm : ∀ r : SearchResult,
      (r ∈ searchThreads s q {} ↔ r ∈ s.threads.filterMap (fun e =>
        let sc := scoreThread q e.2
        if sc.1 > 0 then some ⟨e.2, sc.1, sc.2⟩ else none)) := by
    intro r
    rw [hsearch]
    exact (List.perm_insertionSort _ _).mem_iff
  refine ⟨?_, ?_, ?_, ?_⟩
  · intro r hr
    rcases List.mem_filterMap.1 ((hperm r).1 hr) with ⟨e, _, hf⟩
    simp only at hf
    by_cases hpos : (scoreThread q e.2).1 > 0
    · rw [if_pos hpos] at hf
      cases hf
      exact ⟨hpos, (scoreThread_spec q e.2).1, (scoreThread_spec q e.2).2⟩
    · rw [if_neg hpos] at hf
      cases hf
  · intro e he hpos
    have hpos' : (scoreThread q e.2).1 > 0 := by
      rw [(scoreThread_spec q e.2).1]
      exact hpos
    refine ⟨⟨e.2, (scoreThread q e.2).1, (scoreThread q e.2).2⟩, ?_, rfl⟩
    apply (hperm _).2
    apply List.mem_filterMap.2
    refine ⟨e, he, ?_⟩
    simp only [if_pos hpos']
  · rw [hsearch]
    haveI : IsTotal SearchResult (fun a b => b.score ≤ a.score) :=
      ⟨fun a b => le_total b.score a.score⟩
    haveI : IsTrans SearchResult (fun a b => b.score ≤ a.score) :=
      ⟨fun _ _ _ hab hbc => le_trans hbc hab⟩
    exact List.sorted_insertionSort _ _
  · decide

/-- The single result of the "elon" fixture. -/
def elonResult : SearchResult :=
  { thread := threadElon, score := 35,
    matchRecords := [SearchMatch.author "elonmusk", SearchMatch.authorName "Elon Musk"] }

/-- Witness for C5: the fixture result is a member of the result list and
satisfies the scoring formula with exactly two match records. -/
theorem searchThreads_scoring_witness :
    0 < elonResult.score ∧ elonResult.score = specScore "elon" elonResult.thread ∧
    elonResult.matchRecords.length = specMatchCount "elon" elonResult.thread :=
  (searchThreads_scoring elonStore "elon").1 elonResult (by decide)

/-! ## C8 — filter conjunction -/

/-- The spec's reading of the filters: the conjunction of every supplied
constraint (exact collection, at least one of the given tags,
case-insensitive author substring, case-insensitive post-text
substring). -/
def specMatches (f : Filters) (th : Thread) : Prop :=
  (∀ c, f.collectionId = some c → th.collectionId = c) ∧
  (∀ ts, f.tags = some ts → ∃ g ∈ ts, g ∈ th.tags) ∧
  (∀ a, f.author = some a → containsCI th.authorUsername a = true) ∧
  (∀ q, f.search = some q → ∃ tw ∈ th.tweets, containsCI tw.text q = true)

/-- Under non-degenerate filter values (no empty strings, no empty tag
list — those are falsy in JS and impose no constraint), the code's
filter predicate is exactly the spec's conjunction. -/
theorem threadMatches_iff (f : Filters) (th : Thread)
    (h1 : ∀ c, f.collectionId = some c → c ≠ "")
    (h2 : ∀ ts, f.tags = some ts → ts ≠ [])
    (h3 : ∀ a, f.author = some a → a ≠ "")
    (h4 : ∀ q, f.search = some q → q ≠ "") :
    threadMatches f th = true ↔ specMatches f th := by
  rcases f with ⟨oc, ots, oa, oq⟩
  unfold threadMatches specMatches
  rcases oc with _ | c
  all_goals rcases ots with _ | ts
  all_goals rcases oa with _ | a
  all_goals rcases oq with _ | q
  all_goals
    simp_all [bne_iff_ne, List.any_eq_true, List.elem_iff, List.isEmpty_iff,
      List.isEmpty_eq_true]

/-- C8: `getThreads` with empty filters returns every stored thread, and
with filters present returns exactly the threads satisfying the
conjunction of all supplied filters. -/
theorem getThreads_filter_conjunction (s : State) (f : Filters)
    (h1 : ∀ c, f.collectionId = some c → c ≠ "")
    (h2 : ∀ ts, f.tags = some ts → ts ≠ [])
    (h3 : ∀ a, f.author = some a → a ≠ "")
    (h4 : ∀ q, f.search = some q → q ≠ "") :
    (filtersIsEmpty f = true → getThreadsF s f = s.threads) ∧
    (∀ e, e ∈ getThreadsF s f ↔ e ∈ s.threads ∧ specMatches f e.2) := by
  constructor
  · intro hemp
    simp [getThreadsF, hemp]
  · intro e
    by_cases hemp : filtersIsEmpty f = true
    · have hnone : f.collectionId = none ∧ f.tags = none ∧ f.author = none ∧
          f.search = none := by
        rcases f with ⟨oc, ots, oa, oq⟩
        have h := hemp
        simp only [filtersIsEmpty, Bool.and_eq_true, Option.isNone_iff_eq_none] at h
        exact ⟨h.1.1.1, h.1.1.2, h.1.2, h.2⟩
      have hspec : specMatches f e.2 := by
        refine ⟨fun c hc => ?_, fun ts hts => ?_, fun a ha => ?_, fun q hq => ?_⟩
        · rw [hnone.1] at hc
          cases hc
        · rw [hnone.2.1] at hts
          cases hts
        · rw [hnone.2.2.1] at ha
          cases ha
        · rw [hnone.2.2.2] at hq
          cases hq
      simp [getThreadsF, hemp, hspec]
    · rw [getThreadsF, if_neg hemp, List.mem_filter]
      exact and_congr_right fun _ => threadMatches_iff f e.2 h1 h2 h3 h4

/-- A concrete filter object supplying three of the four constraints. -/
def filtersFix : Filters :=
  { collectionId := some "default", tags := none, author := some "ali",
    search := some "hello" }

/-- Witness for C8 at a concrete store and filters. -/
theorem getThreads_filter_conjunction_witness :
    ("t1", threadT1) ∈ getThreadsF store1 filtersFix ↔
      ("t1", threadT1) ∈ store1.threads ∧ specMatches filtersFix threadT1 :=
  (getThreads_filter_conjunction store1 filtersFix
    (fun c hc => by cases hc; decide)
    (fun ts hts => by cases hts)
    (fun a ha => by cases ha; decide)
    (fun q hq => by cases hq; decide)).2 ("t1", threadT1)

/-! ## C2 — tag-count consistency -/

theorem contains_iff {l : List String} {a : String} : l.contains a = true ↔ a ∈ l :=
  List.elem_iff

/-- The tag-mutating operations of storage.js, as sequence elements. -/
inductive TagOp where
  | add (tid gid : String)
  | remove (tid gid : String)
  | del (gid : String)
  deriving DecidableEq, Repr

def applyTagOp (s : State) : TagOp → State
  | .add tid gid => (addTagToThread s tid gid).1
  | .remove tid gid => (removeTagFromThread s tid gid).1
  | .del gid => (deleteTag s gid).1

def applyTagOps (s : State) (l : List TagOp) : State :=
  l.foldl applyTagOp s

/-- A `removeTagFromThread` call is benign when it refers to a missing
thread or tag (a no-op) or detaches a tag the thread actually carries.
`addTagToThread` and `deleteTag` are always benign. -/
def tagOpOK (s : State) : TagOp → Bool
  | .remove tid gid =>
    match getk tid s.threads, getk gid s.tags with
    | some th, some _ => th.tags.contains gid
    | _, _ => true
  | _ => true

def tagSeqOK (s : State) : List TagOp → Bool
  | [] => true
  | op :: rest => tagOpOK s op && tagSeqOK (applyTagOp s op) rest

/-- Replacing the value at an existing key shifts `countP` by the
difference of the old and new values' predicate. -/
theorem countP_setk {p : Thread → Bool} {m : List (String × Thread)} {t : String}
    {th u : Thread} (hnd : (keys m).Nodup) (h : getk t m = some th) :
    (setk t u m).countP (fun e => p e.2) + (if p th then 1 else 0)
      = m.countP (fun e => p e.2) + (if p u then 1 else 0) := by
  induction m with
  | nil => cases h
  | cons e rest ih =>
    rcases e with ⟨ek, ev⟩
    simp only [keys_cons, List.nodup_cons] at hnd
    by_cases he : ek = t
    · subst he
      rw [getk_cons, if_pos rfl] at h
      injection h with h
      subst h
      simp only [setk, if_pos rfl, List.countP_cons]
      by_cases hv : p ev <;> by_cases hv' : p u <;> simp [hv, hv']
    · rw [getk_cons, if_neg he] at h
      have h2 := ih hnd.2 h
      simp only [setk, if_neg he, List.countP_cons]
      by_cases hv : p ev <;> by_cases h1 : p th <;> by_cases h1' : p u <;>
        simp [hv, h1, h1'] at h2 ⊢ <;> omega


theorem contains_eq_false_iff {l : List String} {a : String} :
    l.contains a = false ↔ a ∉ l := by
  constructor
  · intro h hm
    rw [contains_iff.2 hm] at h
    cases h
  · intro h
    cases hx : l.contains a with
    | false => rfl
    | true => exact absurd (contains_iff.1 hx) h

theorem bool_eq_of_iff {b c : Bool} (h : b = true ↔ c = true) : b = c := by
  cases b <;> cases c <;> simp_all

/-- `addTagToThread` preserves key uniqueness and tag-count
consistency. -/
theorem addTagToThread_inv (s : State) (tid gid : String)
    (hwf : WFState s) (hc : TagConsistent s) :
    WFState (addTagToThread s tid gid).1 ∧ TagConsistent (addTagToThread s tid gid).1 := by
  obtain ⟨hwt, hwc, hwg⟩ := hwf
  unfold addTagToThread
  cases hth : getk tid s.threads with
  | none => exact ⟨⟨hwt, hwc, hwg⟩, hc⟩
  | some th =>
    cases htg : getk gid s.tags with
    | none => exact ⟨⟨hwt, hwc, hwg⟩, hc⟩
    | some tg =>
      by_cases hmem : th.tags.contains gid
      · simp only [if_pos hmem]
        exact ⟨⟨hwt, hwc, hwg⟩, hc⟩
      · simp only [if_neg hmem]
        refine ⟨⟨nodup_keys_setk hwt, hwc, nodup_keys_setk hwg⟩, ?_⟩
        rintro ⟨ek', ev'⟩ he'
        have hnm : gid ∉ th.tags := fun hm => hmem (contains_iff.2 hm)
        rcases (mem_setk_iff hwg).1 he' with ⟨hk, hv⟩ | ⟨hne, he'⟩
        · subst hv
          subst hk
          have hold : tg.threadCount = (tagCount s.threads ek' : Int) :=
            hc (ek', tg) (getk_mem htg)
          have hcount := countP_setk (p := fun t => t.tags.contains ek')
            (u := { th with tags := th.tags ++ [ek'] }) hwt hth
          show tg.threadCount + 1
              = (tagCount (setk tid { th with tags := th.tags ++ [ek'] } s.threads) ek' : Int)
          simp only [tagCount] at hold ⊢
          simp [hnm] at hcount hold ⊢
          omega
        · have hold : ev'.threadCount = (tagCount s.threads ek' : Int) :=
            hc (ek', ev') he'
          have hcount := countP_setk (p := fun t => t.tags.contains ek')
            (u := { th with tags := th.tags ++ [gid] }) hwt hth
          show ev'.threadCount
              = (tagCount (setk tid { th with tags := th.tags ++ [gid] } s.threads) ek' : Int)
          simp only [tagCount] at hold ⊢
          simp [hne] at hcount hold ⊢
          omega

/-- `removeTagFromThread` preserves key uniqueness, and preserves
tag-count consistency whenever the thread actually carries the tag (or
either id is missing). -/
theorem removeTagFromThread_inv (s : State) (tid gid : String)
    (hwf : WFState s) (hc : TagConsistent s)
    (hok : tagOpOK s (.remove tid gid) = true) :
    WFState (removeTagFromThread s tid gid).1 ∧
    TagConsistent (removeTagFromThread s tid gid).1 := by
  obtain ⟨hwt, hwc, hwg⟩ := hwf
  cases hth : getk tid s.threads with
  | none =>
    have heq : removeTagFromThread s tid gid = (s, false) := by
      unfold removeTagFromThread
      rw [hth]
    rw [heq]
    exact ⟨⟨hwt, hwc, hwg⟩, hc⟩
  | some th =>
    cases htg : getk gid s.tags with
    | none =>
      have heq : removeTagFromThread s tid gid = (s, false) := by
        unfold removeTagFromThread
        rw [hth, htg]
      rw [heq]
      exact ⟨⟨hwt, hwc, hwg⟩, hc⟩
    | some tg =>
      have hmem : th.tags.contains gid = true := by
        have h := hok
        rw [show tagOpOK s (TagOp.remove tid gid)
            = (match getk tid s.threads, getk gid s.tags with
               | some th, some _ => th.tags.contains gid
               | _, _ => true) from rfl] at h
        rw [hth, htg] at h
        exact h
      have hmm : gid ∈ th.tags := contains_iff.1 hmem
      have heq : removeTagFromThread s tid gid
          = ({ s with
                threads := setk tid { th with tags := th.tags.filter (· ≠ gid) } s.threads,
                tags := setk gid { tg with threadCount := max 0 (tg.threadCount - 1) } s.tags },
             true) := by
        unfold removeTagFromThread
        rw [hth, htg]
      rw [heq]
      refine ⟨⟨nodup_keys_setk hwt, hwc, nodup_keys_setk hwg⟩, ?_⟩
      rintro ⟨ek', ev'⟩ he'
      rcases (mem_setk_iff hwg).1 he' with ⟨hk, hv⟩ | ⟨hne, he'⟩
      · subst hv
        subst hk
        have hold : tg.threadCount = (tagCount s.threads ek' : Int) :=
          hc (ek', tg) (getk_mem htg)
        have hpos : 0 < tagCount s.threads ek' := by
          rw [tagCount, List.countP_pos_iff]
          exact ⟨(tid, th), getk_mem hth, hmem⟩
        have hcount := countP_setk (p := fun t => t.tags.contains ek')
          (u := { th with tags := th.tags.filter (· ≠ ek') }) hwt hth
        show max 0 (tg.threadCount - 1)
            = (tagCount (setk tid { th with tags := th.tags.filter (· ≠ ek') } s.threads) ek' : Int)
        simp only [tagCount] at hold hpos ⊢
        simp [hmm] at hcount hold hpos ⊢
        omega
      · have hold : ev'.threadCount = (tagCount s.threads ek' : Int) :=
          hc (ek', ev') he'
        have hcount := countP_setk (p := fun t => t.tags.contains ek')
          (u := { th with tags := th.tags.filter (· ≠ gid) }) hwt hth
        show ev'.threadCount
            = (tagCount (setk tid { th with tags := th.tags.filter (· ≠ gid) } s.threads) ek' : Int)
        simp only [tagCount] at hold ⊢
        simp [List.mem_filter, hne] at hcount hold ⊢
        omega

/-- `deleteTag` preserves key uniqueness and tag-count consistency. -/
theorem deleteTag_inv (s : State) (gid : String)
    (hwf : WFState s) (hc : TagConsistent s) :
    WFState (deleteTag s gid).1 ∧ TagConsistent (deleteTag s gid).1 := by
  obtain ⟨hwt, hwc, hwg⟩ := hwf
  unfold deleteTag
  cases htg : getk gid s.tags with
  | none => exact ⟨⟨hwt, hwc, hwg⟩, hc⟩
  | some tg =>
    have hkeys : keys (s.threads.map (fun e =>
        if e.2.tags.contains gid then
          (e.1, { e.2 with tags := e.2.tags.filter (· ≠ gid) })
        else e)) = keys s.threads := by
      unfold keys
      rw [List.map_map]
      apply List.map_congr_left
      intro e _
      by_cases hx : gid ∈ e.2.tags <;> simp [hx]
    refine ⟨⟨by rw [hkeys]; exact hwt, hwc, nodup_keys_delk hwg⟩, ?_⟩
    rintro ⟨ek', ev'⟩ he'
    obtain ⟨hne, he'⟩ := mem_delk_iff.1 he'
    have hold : ev'.threadCount = (tagCount s.threads ek' : Int) := hc (ek', ev') he'
    have hcongr : List.countP (fun e => e.2.tags.contains ek')
        (s.threads.map (fun e =>
          if e.2.tags.contains gid then
            (e.1, { e.2 with tags := e.2.tags.filter (· ≠ gid) })
          else e))
        = List.countP (fun e => e.2.tags.contains ek') s.threads := by
      rw [List.countP_map]
      apply List.countP_congr
      intro e _
      by_cases hx : gid ∈ e.2.tags <;>
        simp [Function.comp, hx, List.mem_filter, hne]
    show ev'.threadCount = (tagCount (s.threads.map (fun e =>
        if e.2.tags.contains gid then
          (e.1, { e.2 with tags := e.2.tags.filter (· ≠ gid) })
        else e)) ek' : Int)
    simp only [tagCount]
    rw [hcongr]
    exact hold

/-- One benign tag operation preserves the well-formedness bundle. -/
theorem applyTagOp_inv (s : State) (op : TagOp)
    (hwf : WFState s) (hc : TagConsistent s) (hok : tagOpOK s op = true) :
    WFState (applyTagOp s op) ∧ TagConsistent (applyTagOp s op) := by
  cases op with
  | add tid gid => exact addTagToThread_inv s tid gid hwf hc
  | remove tid gid => exact removeTagFromThread_inv s tid gid hwf hc hok
  | del gid => exact deleteTag_inv s gid hwf hc

/-- C2 (amended): starting from a well-formed, tag-consistent store,
tag-count consistency is preserved by every sequence of
`addTagToThread`, `removeTagFromThread` and `deleteTag` operations in
which each `removeTagFromThread` call either refers to a missing
thread/tag or removes a tag the thread actually carries.  (The unguarded
claim is false: see the counterexample.) -/
theorem tagCount_consistency_preserved (s : State) (l : List TagOp)
    (hwf : WFState s) (hc : TagConsistent s) (hok : tagSeqOK s l = true) :
    TagConsistent (applyTagOps s l) := by
  induction l generalizing s with
  | nil => exact hc
  | cons op rest ih =>
    rw [tagSeqOK, Bool.and_eq_true] at hok
    have hstep := applyTagOp_inv s op hwf hc hok.1
    exact ih (applyTagOp s op) hstep.1 hstep.2 hok.2

/-- Counterexample to C2 as stated: `tagStore` is consistent (tag `g`
counts exactly the one thread `t1` carrying it), but the single
operation `removeTagFromThread("t2", "g")` — thread `t2` exists and does
not carry `g` — drops the counter to 0 while `t1` still carries `g`. -/
theorem tagCount_consistency_counterexample :
    TagConsistent tagStore ∧
    ¬ TagConsistent (applyTagOps tagStore [TagOp.remove "t2" "g"]) := by
  constructor
  · decide
  · decide

/-- Witness for the amended C2: a concrete benign sequence (attach `g`
to `t2`, detach it again, then delete the tag) keeps the store
consistent. -/
theorem tagCount_consistency_preserved_witness :
    TagConsistent (applyTagOps tagStore
      [TagOp.add "t2" "g", TagOp.remove "t2" "g", TagOp.del "g"]) :=
  tagCount_consistency_preserved tagStore
    [TagOp.add "t2" "g", TagOp.remove "t2" "g", TagOp.del "g"]
    (by decide) (by decide) (by decide)


/-! ## C1 — referential consistency -/

theorem hasKey_setk {k k' : String} {v : α} {m : List (String × α)}
    (h : (getk k m).isSome = true) : (getk k (setk k' v m)).isSome = true := by
  rw [getk_isSome_iff] at h ⊢
  exact mem_keys_setk.2 (Or.inl h)

/-- Replacing collection `k`'s `threadIds` by a list that keeps `t'`
preserves `t'`'s membership facts. -/
theorem memCol_setk {cols : List (String × Collection)} {k c t' : String}
    {kc : Collection} {ids : List String}
    (hcol : getk k cols = some kc) (himp : t' ∈ kc.threadIds → t' ∈ ids)
    (hm : memberOfCollection cols c t') :
    memberOfCollection (setk k { kc with threadIds := ids } cols) c t' := by
  obtain ⟨col, hgc, hmem⟩ := hm
  by_cases hck : c = k
  · subst hck
    rw [hgc] at hcol
    injection hcol with h
    subst h
    exact ⟨_, getk_setk_self, himp hmem⟩
  · exact ⟨col, by rw [getk_setk_ne hck]; exact hgc, hmem⟩

theorem removeFromCol_nodup {cols : List (String × Collection)} {k tid : String}
    (h : (keys cols).Nodup) : (keys (removeFromCol cols k tid)).Nodup := by
  unfold removeFromCol
  cases getk k cols with
  | none => exact h
  | some c => exact nodup_keys_setk h

theorem removeFromCol_isSome {cols : List (String × Collection)} {k tid k' : String}
    (h : (getk k' cols).isSome = true) :
    (getk k' (removeFromCol cols k tid)).isSome = true := by
  unfold removeFromCol
  cases getk k cols with
  | none => exact h
  | some c => exact hasKey_setk h

theorem removeFromCol_mono {cols : List (String × Collection)} {k tid c t' : String}
    (ht : t' ≠ tid) (hm : memberOfCollection cols c t') :
    memberOfCollection (removeFromCol cols k tid) c t' := by
  unfold removeFromCol
  cases hk : getk k cols with
  | none => exact hm
  | some kc =>
    refine memCol_setk hk (fun hmem => ?_) hm
    rw [List.mem_filter]
    exact ⟨hmem, by simpa using ht⟩

theorem addToCol_nodup {cols : List (String × Collection)} {k tid : String}
    (h : (keys cols).Nodup) : (keys (addToCol cols k tid)).Nodup := by
  unfold addToCol
  cases getk k cols with
  | none => exact h
  | some c =>
    dsimp only
    by_cases hc : tid ∈ c.threadIds
    · rw [contains_iff.2 hc, if_pos rfl]
      exact h
    · rw [contains_eq_false_iff.2 hc, if_neg (by simp)]
      exact nodup_keys_setk h

theorem addToCol_isSome {cols : List (String × Collection)} {k tid k' : String}
    (h : (getk k' cols).isSome = true) :
    (getk k' (addToCol cols k tid)).isSome = true := by
  unfold addToCol
  cases getk k cols with
  | none => exact h
  | some c =>
    dsimp only
    by_cases hc : tid ∈ c.threadIds
    · rw [contains_iff.2 hc, if_pos rfl]
      exact h
    · rw [contains_eq_false_iff.2 hc, if_neg (by simp)]
      exact hasKey_setk h

theorem addToCol_mono {cols : List (String × Collection)} {k tid c t' : String}
    (hm : memberOfCollection cols c t') :
    memberOfCollection (addToCol cols k tid) c t' := by
  unfold addToCol
  cases hk : getk k cols with
  | none => exact hm
  | some kc =>
    dsimp only
    by_cases hc : tid ∈ kc.threadIds
    · rw [contains_iff.2 hc, if_pos rfl]
      exact hm
    · rw [contains_eq_false_iff.2 hc, if_neg (by simp)]
      exact memCol_setk hk (fun hmem => List.mem_append.2 (Or.inl hmem)) hm

theorem addToCol_target {cols : List (String × Collection)} {k tid : String} {kc : Collection}
    (hk : getk k cols = some kc) : memberOfCollection (addToCol cols k tid) k tid := by
  unfold addToCol
  rw [hk]
  dsimp only
  by_cases hc : tid ∈ kc.threadIds
  · rw [contains_iff.2 hc, if_pos rfl]
    exact ⟨kc, hk, hc⟩
  · rw [contains_eq_false_iff.2 hc, if_neg (by simp)]
    exact ⟨_, getk_setk_self, List.mem_append.2 (Or.inr (List.mem_singleton.2 rfl))⟩


/-- The C1 invariant bundle: unique keys, the default collection exists,
and every thread is listed by the collection its `collectionId` names. -/
def StoreInv (s : State) : Prop := WFState s ∧ HasDefault s ∧ RefConsistent s

instance (s : State) : Decidable (StoreInv s) := by
  unfold StoreInv
  infer_instance

/-- When both ids exist, `addThreadToCollection` returns `true`, keeps the
store well-formed, keeps every existing collection key, files the thread
under `cid`, and preserves every other thread's membership facts. -/
theorem addThreadToCollection_establish (s : State) (tid cid : String) (th : Thread)
    (hwf : WFState s)
    (hcid : (getk cid s.collections).isSome = true)
    (hth : getk tid s.threads = some th)
    (hpart : ∀ e ∈ s.threads, e.1 ≠ tid →
      memberOfCollection s.collections e.2.collectionId e.1) :
    (addThreadToCollection s tid cid).2 = true ∧
    WFState (addThreadToCollection s tid cid).1 ∧
    (∀ k, (getk k s.collections).isSome = true →
      (getk k (addThreadToCollection s tid cid).1.collections).isSome = true) ∧
    RefConsistent (addThreadToCollection s tid cid).1 := by
  obtain ⟨hwt, hwc, hwg⟩ := hwf
  obtain ⟨col, hcol⟩ := Option.isSome_iff_exists.1 hcid
  have heq : addThreadToCollection s tid cid
      = ({ s with
            collections := addToCol
              (if th.collectionId ≠ "" then removeFromCol s.collections th.collectionId tid
               else s.collections) cid tid,
            threads := setk tid { th with collectionId := cid } s.threads },
         true) := by
    unfold addThreadToCollection
    rw [hcol, hth]
  rw [heq]
  have hc1nodup : (keys (if th.collectionId ≠ "" then
      removeFromCol s.collections th.collectionId tid else s.collections)).Nodup := by
    by_cases hb : th.collectionId ≠ ""
    · rw [if_pos hb]
      exact removeFromCol_nodup hwc
    · rw [if_neg hb]
      exact hwc
  have hc1some : ∀ k, (getk k s.collections).isSome = true →
      (getk k (if th.collectionId ≠ "" then
        removeFromCol s.collections th.collectionId tid else s.collections)).isSome = true := by
    intro k hk
    by_cases hb : th.collectionId ≠ ""
    · rw [if_pos hb]
      exact removeFromCol_isSome hk
    · rw [if_neg hb]
      exact hk
  have hc1mono : ∀ c t', t' ≠ tid → memberOfCollection s.collections c t' →
      memberOfCollection (if th.collectionId ≠ "" then
        removeFromCol s.collections th.collectionId tid else s.collections) c t' := by
    intro c t' hne hm
    by_cases hb : th.collectionId ≠ ""
    · rw [if_pos hb]
      exact removeFromCol_mono hne hm
    · rw [if_neg hb]
      exact hm
  obtain ⟨col1, hcol1⟩ := Option.isSome_iff_exists.1 (hc1some cid hcid)
  refine ⟨rfl, ⟨nodup_keys_setk hwt, addToCol_nodup hc1nodup, hwg⟩, ?_, ?_⟩
  · intro k hk
    exact addToCol_isSome (hc1some k hk)
  · rintro ⟨ek, ev⟩ he
    rcases (mem_setk_iff hwt).1 he with ⟨hk, hv⟩ | ⟨hne, he⟩
    · subst hk
      subst hv
      exact addToCol_target hcol1
    · exact addToCol_mono (hc1mono _ _ hne (hpart (ek, ev) he hne))

/-- C1 piece: `addThreadToCollection` preserves the invariant bundle. -/
theorem addThreadToCollection_storeInv (s : State) (tid cid : String)
    (hinv : StoreInv s) : StoreInv (addThreadToCollection s tid cid).1 := by
  obtain ⟨hwf, hdef, href⟩ := hinv
  cases hcid : getk cid s.collections with
  | none =>
    have heq : addThreadToCollection s tid cid = (s, false) := by
      unfold addThreadToCollection
      rw [hcid]
    rw [heq]
    exact ⟨hwf, hdef, href⟩
  | some col =>
    cases hth : getk tid s.threads with
    | none =>
      have heq : addThreadToCollection s tid cid = (s, false) := by
        unfold addThreadToCollection
        rw [hcid, hth]
      rw [heq]
      exact ⟨hwf, hdef, href⟩
    | some th =>
      obtain ⟨-, hwf', hks, href'⟩ := addThreadToCollection_establish s tid cid th hwf
        (by rw [hcid]; rfl) hth (fun e he _ => href e he)
      exact ⟨hwf', hks "default" hdef, href'⟩

/-- C1 piece: `deleteThread` preserves the invariant bundle. -/
theorem deleteThread_storeInv (s : State) (tid : String) (used : Nat)
    (hinv : StoreInv s) : StoreInv (deleteThread s tid used).1 := by
  obtain ⟨⟨hwt, hwc, hwg⟩, hdef, href⟩ := hinv
  cases hth : getk tid s.threads with
  | none =>
    have heq : deleteThread s tid used = (s, false) := by
      unfold deleteThread
      rw [hth]
    rw [heq]
    exact ⟨⟨hwt, hwc, hwg⟩, hdef, href⟩
  | some th =>
    cases hrc : getk th.collectionId s.collections with
    | none =>
      have heq : deleteThread s tid used
          = ({ s with threads := delk tid s.threads,
                      metadata := { s.metadata with
                                     threadCount := s.metadata.threadCount - 1,
                                     storageUsed := used } },
             true) := by
        unfold deleteThread removeThreadFromCollection
        rw [hth]
        dsimp only
        rw [hrc]
      rw [heq]
      refine ⟨⟨nodup_keys_delk hwt, hwc, hwg⟩, hdef, ?_⟩
      rintro ⟨ek, ev⟩ he
      obtain ⟨hne, he⟩ := mem_delk_iff.1 he
      exact href (ek, ev) he
    | some col =>
      have heq : deleteThread s tid used
          = ({ s with
                collections := setk th.collectionId
                  { col with threadIds := col.threadIds.filter (· ≠ tid) } s.collections,
                threads := delk tid s.threads,
                metadata := { s.metadata with
                               threadCount := s.metadata.threadCount - 1,
                               storageUsed := used } },
             true) := by
        unfold deleteThread removeThreadFromCollection
        rw [hth]
        dsimp only
        rw [hrc]
      rw [heq]
      refine ⟨⟨nodup_keys_delk hwt, nodup_keys_setk hwc, hwg⟩, hasKey_setk hdef, ?_⟩
      rintro ⟨ek, ev⟩ he
      obtain ⟨hne, he⟩ := mem_delk_iff.1 he
      refine memCol_setk hrc (fun hmem => ?_) (href (ek, ev) he)
      rw [List.mem_filter]
      exact ⟨hmem, by simpa using hne⟩


/-- Invariant carried through the thread-reassignment loop of
`deleteCollection`: keys stay unique, no collection key disappears,
memberships stay intact, and after the whole list is processed no
surviving thread is owned by `cid` any more. -/
theorem moveToDefault_fold (cid : String) (hcid : ¬ cid = "default") (tids : List String) :
    ∀ (ths : List (String × Thread)) (cols : List (String × Collection))
      (ths' : List (String × Thread)) (cols' : List (String × Collection)),
    (keys ths).Nodup → (keys cols).Nodup →
    (∀ e ∈ ths, memberOfCollection cols e.2.collectionId e.1) →
    (∀ e ∈ ths, e.2.collectionId = cid → e.1 ∈ tids) →
    tids.foldlM moveToDefault (ths, cols) = .ok (ths', cols') →
    (keys ths').Nodup ∧ (keys cols').Nodup ∧
    (∀ k, (getk k cols).isSome = true → (getk k cols').isSome = true) ∧
    (∀ e ∈ ths', memberOfCollection cols' e.2.collectionId e.1) ∧
    (∀ e ∈ ths', e.2.collectionId ≠ cid) := by
  induction tids with
  | nil =>
    intro ths cols ths' cols' h1 h2 h3 h4 heq
    rw [List.foldlM_nil] at heq
    have heq' : (Except.ok (ths, cols) : Except DelColErr _) = Except.ok (ths', cols') := heq
    injection heq' with h
    injection h with ha hb
    subst ha
    subst hb
    exact ⟨h1, h2, fun k hk => hk, h3,
      fun e he hec => absurd (h4 e he hec) (List.not_mem_nil _)⟩
  | cons tid0 rest ih =>
    intro ths cols ths' cols' h1 h2 h3 h4 heq
    rw [List.foldlM_cons] at heq
    cases hth0 : getk tid0 ths with
    | none =>
      have hstep : moveToDefault (ths, cols) tid0 = .ok (ths, cols) := by
        unfold moveToDefault
        dsimp only
        rw [hth0]
      rw [hstep] at heq
      have heq' : rest.foldlM moveToDefault (ths, cols) = .ok (ths', cols') := heq
      refine ih ths cols ths' cols' h1 h2 h3 ?_ heq'
      intro e he hec
      rcases List.mem_cons.1 (h4 e he hec) with h | h
      · exfalso
        apply getk_eq_none_iff.1 hth0
        rw [← h]
        exact List.mem_map.2 ⟨e, he, rfl⟩
      · exact h
    | some th0 =>
      cases hdef : getk "default" cols with
      | none =>
        have hstep : moveToDefault (ths, cols) tid0 = .error .crash := by
          unfold moveToDefault
          dsimp only
          rw [hth0]
          dsimp only
          rw [hdef]
        rw [hstep] at heq
        have heq' : (Except.error DelColErr.crash :
            Except DelColErr (List (String × Thread) × List (String × Collection)))
            = Except.ok (ths', cols') := heq
        exact Except.noConfusion heq'
      | some dcol =>
        have hstep : moveToDefault (ths, cols) tid0
            = .ok (setk tid0 { th0 with collectionId := "default" } ths,
                   setk "default" { dcol with threadIds := dcol.threadIds ++ [tid0] } cols) := by
          unfold moveToDefault
          dsimp only
          rw [hth0]
          dsimp only
          rw [hdef]
        rw [hstep] at heq
        have heq' : rest.foldlM moveToDefault
            (setk tid0 { th0 with collectionId := "default" } ths,
             setk "default" { dcol with threadIds := dcol.threadIds ++ [tid0] } cols)
            = .ok (ths', cols') := heq
        have h1' := nodup_keys_setk (k := tid0)
          (v := { th0 with collectionId := "default" }) h1
        have h2' := nodup_keys_setk (k := "default")
          (v := { dcol with threadIds := dcol.threadIds ++ [tid0] }) h2
        have h3' : ∀ e ∈ setk tid0 { th0 with collectionId := "default" } ths,
            memberOfCollection
              (setk "default" { dcol with threadIds := dcol.threadIds ++ [tid0] } cols)
              e.2.collectionId e.1 := by
          rintro ⟨ek, ev⟩ he
          rcases (mem_setk_iff h1).1 he with ⟨hk, hv⟩ | ⟨hne, he⟩
          · subst hk
            subst hv
            exact ⟨_, getk_setk_self, List.mem_append.2 (Or.inr (List.mem_singleton.2 rfl))⟩
          · exact memCol_setk hdef (fun hm => List.mem_append.2 (Or.inl hm)) (h3 (ek, ev) he)
        have h4' : ∀ e ∈ setk tid0 { th0 with collectionId := "default" } ths,
            e.2.collectionId = cid → e.1 ∈ rest := by
          rintro ⟨ek, ev⟩ he hec
          rcases (mem_setk_iff h1).1 he with ⟨hk, hv⟩ | ⟨hne, he⟩
          · subst hv
            exfalso
            apply hcid
            have hdc : ("default" : String) = cid := hec
            exact hdc.symm
          · rcases List.mem_cons.1 (h4 (ek, ev) he hec) with h | h
            · exact absurd h hne
            · exact h
        obtain ⟨c1, c2, c3, c4, c5⟩ := ih _ _ ths' cols' h1' h2' h3' h4' heq'
        exact ⟨c1, c2, fun k hk => c3 k (hasKey_setk hk), c4, c5⟩

/-- C1 piece: `deleteCollection` preserves the invariant bundle. -/
theorem deleteCollection_storeInv (s : State) (cid : String)
    (hinv : StoreInv s) : StoreInv (deleteCollection s cid).1 := by
  obtain ⟨⟨hwt, hwc, hwg⟩, hdef, href⟩ := hinv
  by_cases hc : cid = "default"
  · subst hc
    rw [deleteCollection_default_forbidden]
    exact ⟨⟨hwt, hwc, hwg⟩, hdef, href⟩
  · have heq : deleteCollection s cid
        = (match (((getk cid s.collections).map Collection.threadIds).getD []).foldlM
            moveToDefault (s.threads, s.collections) with
           | .ok acc => ({ s with threads := acc.1, collections := delk cid acc.2 }, .ok true)
           | .error e => (s, .error e)) := by
      unfold deleteCollection
      rw [if_neg hc]
      dsimp only
      cases (((getk cid s.collections).map Collection.threadIds).getD []).foldlM
          moveToDefault (s.threads, s.collections) with
      | ok acc =>
        obtain ⟨a, b⟩ := acc
        rfl
      | error e => rfl
    rw [heq]
    cases hfold : (((getk cid s.collections).map Collection.threadIds).getD []).foldlM
        moveToDefault (s.threads, s.collections) with
    | error e => exact ⟨⟨hwt, hwc, hwg⟩, hdef, href⟩
    | ok acc =>
      obtain ⟨ths', cols'⟩ := acc
      have h4 : ∀ e ∈ s.threads, e.2.collectionId = cid →
          e.1 ∈ (((getk cid s.collections).map Collection.threadIds).getD []) := by
        intro e he hec
        obtain ⟨col, hgc, hmem⟩ := href e he
        rw [hec] at hgc
        rw [hgc]
        simpa using hmem
      obtain ⟨c1, c2, c3, c4, c5⟩ := moveToDefault_fold cid hc _ s.threads s.collections
        ths' cols' hwt hwc href h4 hfold
      refine ⟨⟨c1, nodup_keys_delk c2, hwg⟩, ?_, ?_⟩
      · show (getk "default" (delk cid cols')).isSome = true
        rw [getk_delk_ne (fun h => hc h.symm)]
        exact c3 "default" hdef
      · intro e he
        obtain ⟨col, hgc, hmem⟩ := c4 e he
        refine ⟨col, ?_, hmem⟩
        rw [getk_delk_ne (c5 e he)]
        exact hgc

/-- The state `saveThread` hands to `addThreadToCollection` satisfies the
invariant afterwards: the fresh thread is pointed at `default` and filed
there, everything else is untouched. -/
theorem saveThread_aux (s : State) (tid : String) (thread : Thread) (md : Metadata)
    (hinv : StoreInv s) :
    StoreInv (addThreadToCollection
      { s with threads := setk tid thread s.threads, metadata := md } tid "default").1 := by
  obtain ⟨⟨hwt, hwc, hwg⟩, hdef, href⟩ := hinv
  have h1 : WFState { s with threads := setk tid thread s.threads, metadata := md } :=
    ⟨nodup_keys_setk hwt, hwc, hwg⟩
  have h3 : getk tid (setk tid thread s.threads) = some thread := getk_setk_self
  have h4 : ∀ e ∈ setk tid thread s.threads, e.1 ≠ tid →
      memberOfCollection s.collections e.2.collectionId e.1 := by
    rintro ⟨ek, ev⟩ he hne
    rcases (mem_setk_iff hwt).1 he with ⟨hk, _⟩ | ⟨_, he⟩
    · exact absurd hk hne
    · exact href (ek, ev) he
  obtain ⟨-, hwf', hks, href'⟩ := addThreadToCollection_establish
    { s with threads := setk tid thread s.threads, metadata := md } tid "default"
    thread h1 hdef h3 h4
  exact ⟨hwf', hks "default" hdef, href'⟩

/-- C1 piece: `saveThread` preserves the invariant bundle. -/
theorem saveThread_storeInv (s : State) (d : Capture) (now used : Nat)
    (hinv : StoreInv s) : StoreInv (saveThread s d now used).1 := by
  by_cases hq : isPremiumUser s = false ∧ s.metadata.threadCount ≥ MAX_FREE_THREADS
  · rw [saveThread, if_pos hq]
    exact hinv
  · rw [saveThread, if_neg hq]
    exact saveThread_aux s (generateThreadId d now) _ _ hinv

/-- C1 (amended): starting from a well-formed store in which the default
collection exists and every thread is listed by the collection its
`collectionId` names, the invariant bundle is preserved by `saveThread`,
`addThreadToCollection`, `deleteCollection` and `deleteThread`.  It is
NOT preserved by a standalone `removeThreadFromCollection` call, which
detaches the id from the collection's `threadIds` while leaving the
thread's `collectionId` pointing there (see the counterexample). -/
theorem ref_consistency_preserved (s : State) (hinv : StoreInv s) :
    (∀ d now used, StoreInv (saveThread s d now used).1) ∧
    (∀ tid cid, StoreInv (addThreadToCollection s tid cid).1) ∧
    (∀ cid, StoreInv (deleteCollection s cid).1) ∧
    (∀ tid used, StoreInv (deleteThread s tid used).1) :=
  ⟨fun d now used => saveThread_storeInv s d now used hinv,
   fun tid cid => addThreadToCollection_storeInv s tid cid hinv,
   fun cid => deleteCollection_storeInv s cid hinv,
   fun tid used => deleteThread_storeInv s tid used hinv⟩

/-- Counterexample to C1 as stated: on a store satisfying the invariant,
`removeThreadFromCollection("t1", "default")` completes (returns `true`)
yet afterwards thread `t1` still has `collectionId = "default"` while the
default collection no longer lists it. -/
theorem ref_consistency_counterexample :
    StoreInv store1 ∧
    (removeThreadFromCollection store1 "t1" "default").2 = true ∧
    ¬ RefConsistent (removeThreadFromCollection store1 "t1" "default").1 := by
  decide

/-- Witness for the amended C1: deleting thread `t1` from a concrete
consistent store keeps the invariant bundle. -/
theorem ref_consistency_preserved_witness :
    StoreInv (deleteThread store1 "t1" 3).1 :=
  (ref_consistency_preserved store1 (by decide)).2.2.2 "t1" 3

end ThreadKeeper
